import Mathlib

/-!
Shallow embedding of `main.go` of the youtube-video-checker service.

The program keeps a cached list of recent videos (`cachedVideos`, `lastFetch`,
`cacheDuration`) refreshed by `fetchLatestVideos`, which queries a search
endpoint per channel, drops items with unparsable timestamps, enriches
"upcoming" videos with scheduled start times via batched detail lookups
(`splitChunks`), and sorts the merged list by publication time descending.

Modelling conventions:
- Time instants (`time.Time`) are `Int` nanoseconds since an arbitrary epoch;
  durations (`time.Duration`) are `Int` nanoseconds, so `10 * time.Minute`
  is `10 * 60 * 1000000000`.  `time.Now()` results are passed in explicitly,
  one parameter per call site.  `schedUTC.In(time.Local)` changes only the
  display location of a `time.Time`, not the instant it denotes, so on
  instants it is the identity and is not represented.
- `time.Parse(time.RFC3339, s)` is an external library routine; it is a
  parameter `parse : String → Option Int` (`none` models a parse error).
- The YouTube API is a black box: `Search.List` (with its `ChannelId` and
  `PublishedAfter` arguments) and `Videos.List` (with its batch of ids) are
  parameters returning `Except String _` (`.error` models a non-nil `err`).
- A Go `map[string]string` lookup `channelNames[channelID]` yields `""` for
  a missing key, so the channel directory is a total function
  `String → String`.
- The zero `time.Time` of a fresh `Video.ScheduledStartTime` is `none`;
  the assignment `videos[i].ScheduledStartTime = localSched` stores `some _`.
- `sort.Slice(videos, less)` with `less i j = videos[i].Published.After(videos[j].Published)`
  is an unstable comparison sort; it is modelled by `List.insertionSort` with
  the complementary total comparator `videoLe a b = (b.published ≤ a.published)`.
  Both produce a permutation of the input that is pairwise `videoLe`-sorted;
  they agree wherever tie order is irrelevant (distinct keys), which is the
  only regime the theorems below use.
-/

namespace YVC

/-- One element of `searchResp.Items` of the per-channel `Search.List` call:
the fields the program reads are `Id.VideoId`, `Snippet.Title`,
`Snippet.Thumbnails.High.Url`, `Snippet.PublishedAt` (a raw RFC3339 string)
and `Snippet.LiveBroadcastContent`. -/
structure SearchItem where
  videoId : String
  title : String
  thumbnailUrl : String
  publishedAt : String
  liveBroadcastContent : String
deriving Repr, DecidableEq

/-- One element of `videoResp.Items` of a `Videos.List("liveStreamingDetails")`
call: `Id`, and `LiveStreamingDetails` (where `none` models a nil pointer and
the carried string is `ScheduledStartTime`, possibly empty). -/
structure DetailItem where
  id : String
  liveStreamingDetails : Option String
deriving Repr, DecidableEq

/-- The `Video` struct of `main.go`.  `scheduledStartTime = none` models the
zero `time.Time`. -/
structure Video where
  videoId : String
  channel : String
  title : String
  thumbnail : String
  url : String
  published : Int
  liveStatus : String
  scheduledStartTime : Option Int
deriving Repr, DecidableEq

/-- The loop body of `splitChunks`: each iteration takes the next slice of
at most `n` elements and advances by `n`.  The Go loop advances `i` by
`n ≥ 1` per iteration, so it runs at most `len(ids)` times; that bound is
made explicit as structural fuel so that the function evaluates by kernel
reduction.  With `n = 0` the Go loop would not terminate; that unreachable
case (the source always passes `n = 50`) returns `[]`. -/
def splitChunksGo : Nat → List String → Nat → List (List String)
  | _, [], _ => []
  | _, _ :: _, 0 => []
  | 0, _ :: _, _ + 1 => []
  | fuel + 1, a :: l, n + 1 =>
    (a :: l).take (n + 1) :: splitChunksGo fuel ((a :: l).drop (n + 1)) (n + 1)

/-- `splitChunks(ids, n)`: chunks `ids` into consecutive slices of length at
most `n`. -/
def splitChunks (ids : List String) (n : Nat) : List (List String) :=
  splitChunksGo ids.length ids n

/-- The `Video` literal appended for one surviving search item. -/
def mkVideo (channelName : String) (item : SearchItem) (pubTime : Int) : Video :=
  { videoId := item.videoId
    channel := channelName
    title := item.title
    thumbnail := item.thumbnailUrl
    url := "https://www.youtube.com/watch?v=" ++ item.videoId
    published := pubTime
    liveStatus := item.liveBroadcastContent
    scheduledStartTime := none }

/-- The inner loop over `searchResp.Items`: parse `Snippet.PublishedAt`;
on a parse error `continue` (the item is dropped), otherwise append a
`Video`. -/
def parseItems (parse : String → Option Int) (channelName : String)
    (items : List SearchItem) : List Video :=
  items.filterMap fun item => (parse item.publishedAt).map (mkVideo channelName item)

/-- The per-channel loop of `fetchLatestVideos`: call `Search.List` for each
channel id with the fixed `PublishedAfter` bound; any error aborts the whole
pipeline (`return nil, err`); the per-channel video lists are appended in
channel order. -/
def collectSearch (parse : String → Option Int)
    (searchList : String → Int → Except String (List SearchItem))
    (channelNames : String → String) (weekAgo : Int) :
    List String → Except String (List Video)
  | [] => .ok []
  | c :: cs =>
    match searchList c weekAgo with
    | .error e => .error e
    | .ok items =>
      match collectSearch parse searchList channelNames weekAgo cs with
      | .error e => .error e
      | .ok rest => .ok (parseItems parse (channelNames c) items ++ rest)

/-- The update loop `for i := range videos { if videos[i].VideoID == item.Id
{ videos[i].ScheduledStartTime = localSched; break } }`: set the scheduled
start time of the first video whose id matches, leave the rest unchanged. -/
def setSched (id : String) (t : Int) : List Video → List Video
  | [] => []
  | v :: vs =>
    if v.videoId = id then { v with scheduledStartTime := some t } :: vs
    else v :: setSched id t vs

/-- The loop over `videoResp.Items` of one successful detail batch: an item
with nil `LiveStreamingDetails` or an empty `ScheduledStartTime` is skipped;
an unparsable `ScheduledStartTime` is logged and skipped; otherwise the first
matching video is updated. -/
def applyDetails (parse : String → Option Int) (items : List DetailItem)
    (vs : List Video) : List Video :=
  items.foldl (fun acc item =>
    match item.liveStreamingDetails with
    | none => acc
    | some s =>
      if s = "" then acc
      else
        match parse s with
        | none => acc
        | some sched => setSched item.id sched acc) vs

/-- `upcomingIDs`: the ids of the videos whose `LiveStatus` is `"upcoming"`,
in list order. -/
def upcomingIDs (vs : List Video) : List String :=
  (vs.filter fun v => v.liveStatus = "upcoming").map (·.videoId)

/-- The enrichment phase of `fetchLatestVideos`: if there is at least one
upcoming video, chunk the upcoming ids into batches of 50 and call
`Videos.List` per batch; a failed batch is logged and skipped (`continue`),
a successful one is folded in by `applyDetails`. -/
def enrich (parse : String → Option Int)
    (videosList : List String → Except String (List DetailItem))
    (vs : List Video) : List Video :=
  if (upcomingIDs vs).length > 0 then
    (splitChunks (upcomingIDs vs) 50).foldl (fun acc batch =>
      match videosList batch with
      | .error _ => acc
      | .ok items => applyDetails parse items acc) vs
  else vs

/-- `time.Now().AddDate(0, 0, -7)`: seven days, as nanoseconds. -/
def weekNanos : Int := 7 * 24 * 60 * 60 * 1000000000

/-- The comparator of the final `sort.Slice`, complemented into the total
"less or equal" form: `a` may precede `b` iff `b.Published ≤ a.Published`
(the source's strict `less` is `a.Published.After(b.Published)`). -/
def videoLe (a b : Video) : Prop := b.published ≤ a.published

instance : DecidableRel videoLe := fun a b => Int.decLe b.published a.published

instance : IsTotal Video videoLe := ⟨fun a b => Int.le_total b.published a.published⟩

instance : IsTrans Video videoLe := ⟨fun _ _ _ h1 h2 => le_trans h2 h1⟩

/-- `fetchLatestVideos(svc, channelNames, channelIDs)` at an invocation whose
`time.Now()` is `now`: search each channel for videos published after
`now` minus seven days (fail-fast), enrich the upcoming ones (best-effort),
and sort the result by publication time descending. -/
def fetchLatestVideos (parse : String → Option Int)
    (searchList : String → Int → Except String (List SearchItem))
    (videosList : List String → Except String (List DetailItem))
    (channelNames : String → String) (channelIDs : List String)
    (now : Int) : Except String (List Video) :=
  match collectSearch parse searchList channelNames (now - weekNanos) channelIDs with
  | .error e => .error e
  | .ok videos => .ok (List.insertionSort videoLe (enrich parse videosList videos))

/-- The shared mutable state guarded by `mu`: `cachedVideos` and `lastFetch`. -/
structure CacheState where
  cachedVideos : List Video
  lastFetch : Int
deriving Repr, DecidableEq

/-- `cacheDuration = 10 * time.Minute`, in nanoseconds. -/
def cacheDuration : Int := 10 * 60 * 1000000000

/-- What the HTTP handler writes to the response: a 500 with an error body,
or the rendered page over a copy of the cached video list. -/
inductive HandlerResult where
  | serverError (msg : String)
  | page (videos : List Video)
deriving Repr, DecidableEq

/-- One sequential execution of the `http.HandleFunc("/", ...)` closure.
`now0` is the `time.Now()` inside `time.Since(lastFetch)` at the staleness
check; `fetchResult` is the outcome of the `fetchLatestVideos` call (consulted
only when a refresh is needed); `now1` is the `time.Now()` assigned to
`lastFetch` after a successful fetch.  Returns the state after the request
and what was written.  Template execution is external rendering of the
copied slice `toRender` and is modelled as succeeding with that list. -/
def handleRequest (fetchResult : Except String (List Video))
    (s : CacheState) (now0 now1 : Int) : CacheState × HandlerResult :=
  let needRefresh := now0 - s.lastFetch > cacheDuration
  if needRefresh then
    match fetchResult with
    | .error e => (s, .serverError ("YouTube API error: " ++ e))
    | .ok videos =>
      ({ cachedVideos := videos, lastFetch := now1 },
       .page videos)
  else
    (s, .page s.cachedVideos)

/-- The startup initialization of the cache:
`cachedVideos` is the nil slice and
`lastFetch = time.Now().Add(-2 * cacheDuration)` where `startupNow` is that
`time.Now()`. -/
def initState (startupNow : Int) : CacheState :=
  { cachedVideos := [], lastFetch := startupNow - 2 * cacheDuration }

/-- The effect of processing one detail item of a successful batch on one
video, as a per-video function: with non-nil details, a non-empty and
parsable scheduled start time, and a matching id, the scheduled start time
is set; otherwise the video is unchanged.  Composing this over all items
reproduces `applyDetails` when video ids are distinct (`applyDetails_eq_map`
below). -/
def stepItem (parse : String → Option Int) (item : DetailItem) (v : Video) : Video :=
  match item.liveStreamingDetails with
  | none => v
  | some s =>
    if s = "" then v
    else
      match parse s with
      | none => v
      | some sched =>
        if v.videoId = item.id then { v with scheduledStartTime := some sched } else v

/-- The effect of one enrichment batch on one video: a failed `Videos.List`
call leaves it unchanged, a successful one folds `stepItem` over the
returned items. -/
def stepBatch (parse : String → Option Int)
    (videosList : List String → Except String (List DetailItem))
    (batch : List String) (v : Video) : Video :=
  match videosList batch with
  | .error _ => v
  | .ok items => items.foldl (fun acc it => stepItem parse it acc) v

/-- The cumulative effect of all enrichment batches on one video. -/
def enrichVideo (parse : String → Option Int)
    (videosList : List String → Except String (List DetailItem))
    (batches : List (List String)) (v : Video) : Video :=
  batches.foldl (fun acc b => stepBatch parse videosList b acc) v

/-- A detail item that enriches the video with id `id`: it matches by id,
carries non-nil details with a non-empty scheduled start time, and that time
parses. -/
def matchGood (parse : String → Option Int) (id : String) (it : DetailItem) : Prop :=
  it.id = id ∧ ∃ s, it.liveStreamingDetails = some s ∧ s ≠ "" ∧ (parse s).isSome

/-- The strict form of the sort comparator: `a` strictly precedes `b` iff
`a.published > b.published` (the `less` of the source's `sort.Slice`). -/
def videoLt (a b : Video) : Prop := b.published < a.published

instance : IsAntisymm Video videoLt :=
  ⟨fun a b h1 h2 => absurd (lt_trans h1 h2) (lt_irrefl _)⟩

/-- A concrete stand-in for the RFC3339 parser in witness scenarios: a few
fixed strings parse, everything else fails. -/
def exParse (s : String) : Option Int :=
  if s = "5" then some 5
  else if s = "9" then some 9
  else if s = "20" then some 20
  else none

/-- First example search item (published time 5). -/
def exItemA : SearchItem :=
  { videoId := "vA", title := "tA", thumbnailUrl := "hA",
    publishedAt := "5", liveBroadcastContent := "none" }

/-- Second example search item (published time 9). -/
def exItemB : SearchItem :=
  { videoId := "vB", title := "tB", thumbnailUrl := "hB",
    publishedAt := "9", liveBroadcastContent := "none" }

/-- Example search item with an unparsable published timestamp. -/
def exItemBad : SearchItem :=
  { videoId := "vX", title := "tX", thumbnailUrl := "hX",
    publishedAt := "oops", liveBroadcastContent := "none" }

/-- Example search item for an upcoming livestream (published time 9). -/
def exItemUp : SearchItem :=
  { videoId := "vU", title := "tU", thumbnailUrl := "hU",
    publishedAt := "9", liveBroadcastContent := "upcoming" }

/-- The record built from `exItemA`. -/
def exVideoA : Video := mkVideo "N" exItemA 5

/-- The record built from `exItemB`. -/
def exVideoB : Video := mkVideo "N" exItemB 9

/-- The record built from `exItemUp`. -/
def exVideoUp : Video := mkVideo "N" exItemUp 9

/-- The search capability of the C6 witness scenario, with the malformed item. -/
def exSearchWithBad (c : String) (_ : Int) : Except String (List SearchItem) :=
  if c = "c" then .ok ([exItemA] ++ exItemBad :: [exItemB]) else .ok []

/-- The search capability of the C6 witness scenario, without the malformed
item, identical elsewhere. -/
def exSearchNoBad (c : String) (_ : Int) : Except String (List SearchItem) :=
  if c = "c" then .ok ([exItemA] ++ [exItemB]) else .ok []

/-- The search capability of the enrichment witness scenarios: one channel
returning a plain video and an upcoming one. -/
def exSearchUp (c : String) (_ : Int) : Except String (List SearchItem) :=
  if c = "c" then .ok [exItemA, exItemUp] else .ok []

/-- A well-behaved detail capability: answers every requested id with a
scheduled start time of `"20"`. -/
def exDetailsOk (b : List String) : Except String (List DetailItem) :=
  .ok (b.map fun i => { id := i, liveStreamingDetails := some "20" })

/-- `exVideoUp` after successful enrichment. -/
def exVideoUpSched : Video := { exVideoUp with scheduledStartTime := some 20 }

/-- A detail capability whose every batch fails. -/
def exDetailsFail (_ : List String) : Except String (List DetailItem) :=
  .error "down"

/-- Per-channel responses for the channel-order witness scenario. -/
def exResp (c : String) : List SearchItem :=
  if c = "c1" then [exItemA] else if c = "c2" then [exItemUp] else []

/-- A search capability answering each channel with `exResp`. -/
def exSearchResp (c : String) (_ : Int) : Except String (List SearchItem) :=
  .ok (exResp c)

/-- A per-id detail record function: only `"vU"` has details. -/
def exItemOf (i : String) : Option DetailItem :=
  if i = "vU" then some { id := "vU", liveStreamingDetails := some "20" } else none

/-- A deterministic per-id detail capability built from `exItemOf`. -/
def exDetailsFun (b : List String) : Except String (List DetailItem) :=
  .ok (b.filterMap exItemOf)

/-- A successful `fetchLatestVideos` returns the sorted enrichment of the
collected search results. -/
theorem fetch_ok_iff (parse : String → Option Int)
    (searchList : String → Int → Except String (List SearchItem))
    (videosList : List String → Except String (List DetailItem))
    (channelNames : String → String) (channelIDs : List String)
    (now : Int) (vs : List Video)
    (h : fetchLatestVideos parse searchList videosList channelNames channelIDs now = .ok vs) :
    ∃ base, collectSearch parse searchList channelNames (now - weekNanos) channelIDs = .ok base ∧
      vs = List.insertionSort videoLe (enrich parse videosList base) := by
  unfold fetchLatestVideos at h
  cases hc : collectSearch parse searchList channelNames (now - weekNanos) channelIDs with
  | error e => rw [hc] at h; exact absurd h (by simp)
  | ok base =>
    rw [hc] at h
    exact ⟨base, rfl, by injection h with h; exact h.symm⟩

/-- C1: when a refresh attempt's fetch fails, the handler leaves the cache
state (`cachedVideos` and `lastFetch`) exactly as it was before the attempt
and writes a server error instead of a page. -/
theorem failed_refresh_preserves_cache (e : String) (s : CacheState)
    (now0 now1 : Int) (hstale : now0 - s.lastFetch > cacheDuration) :
    handleRequest (.error e) s now0 now1 =
      (s, .serverError ("YouTube API error: " ++ e)) := by
  simp [handleRequest, hstale]

/-- Witness for C1 at a concrete stale state. -/
theorem failed_refresh_preserves_cache_witness :
    ((0 : Int) - (initState 0).lastFetch > cacheDuration) ∧
    handleRequest (.error "quota exceeded") (initState 0) 0 5 =
      (initState 0, .serverError ("YouTube API error: " ++ "quota exceeded")) :=
  ⟨by decide, failed_refresh_preserves_cache "quota exceeded" (initState 0) 0 5 (by decide)⟩

/-- C2: a request arriving while the cache is fresh returns the cached list
unchanged with untouched state, and the fetch pipeline is not consulted at
all (the outcome is identical for any two fetch results). -/
theorem fresh_request_serves_cache (f g : Except String (List Video))
    (s : CacheState) (now0 now1 now1' : Int)
    (hfresh : ¬ now0 - s.lastFetch > cacheDuration) :
    handleRequest f s now0 now1 = (s, .page s.cachedVideos) ∧
    handleRequest f s now0 now1 = handleRequest g s now0 now1' := by
  simp [handleRequest, hfresh]

/-- Witness for C2 at a concrete fresh state. -/
theorem fresh_request_serves_cache_witness :
    (¬ (5 : Int) - (CacheState.mk [] 0).lastFetch > cacheDuration) ∧
    (handleRequest (.error "ignored") (CacheState.mk [] 0) 5 6 =
      (CacheState.mk [] 0, .page []) ∧
     handleRequest (.error "ignored") (CacheState.mk [] 0) 5 6 =
      handleRequest (.ok []) (CacheState.mk [] 0) 5 7) :=
  ⟨by decide,
   fresh_request_serves_cache (.error "ignored") (.ok []) (CacheState.mk [] 0) 5 6 7 (by decide)⟩

/-- C5: at startup the snapshot is empty and `lastFetch` is two cache
windows in the past, so the staleness test of the first request (at any time
not before startup) is true and the handler takes the refresh branch. -/
theorem first_request_refreshes (startupNow now0 now1 : Int) (vs : List Video)
    (h : startupNow ≤ now0) :
    (initState startupNow).cachedVideos = [] ∧
    (initState startupNow).lastFetch = startupNow - 2 * cacheDuration ∧
    (now0 - (initState startupNow).lastFetch > cacheDuration) ∧
    handleRequest (.ok vs) (initState startupNow) now0 now1 =
      ({ cachedVideos := vs, lastFetch := now1 }, .page vs) := by
  have hstale : now0 - (initState startupNow).lastFetch > cacheDuration := by
    simp only [initState, cacheDuration] at *
    omega
  exact ⟨rfl, rfl, hstale, by simp [handleRequest, hstale]⟩

/-- Witness for C5 at startup time 0 with the first request also at time 0. -/
theorem first_request_refreshes_witness :
    ((0 : Int) ≤ 0) ∧
    ((initState 0).cachedVideos = [] ∧
     (initState 0).lastFetch = 0 - 2 * cacheDuration ∧
     ((0 : Int) - (initState 0).lastFetch > cacheDuration) ∧
     handleRequest (.ok []) (initState 0) 0 3 =
       ({ cachedVideos := [], lastFetch := 3 }, .page [])) :=
  ⟨by decide, first_request_refreshes 0 0 3 [] (by decide)⟩

/-- C9: after a successful refresh the stored `lastFetch` is the time
sampled after `fetchLatestVideos` returned (`now1`), not the
staleness-check time (`now0`); hence any request more than `cacheDuration`
after that completion sees the snapshot as stale again. -/
theorem lastFetch_sampled_after_fetch (vs : List Video) (s : CacheState)
    (now0 now1 t : Int) (hstale : now0 - s.lastFetch > cacheDuration)
    (hlate : t - now1 > cacheDuration) :
    (handleRequest (.ok vs) s now0 now1).1.lastFetch = now1 ∧
    t - (handleRequest (.ok vs) s now0 now1).1.lastFetch > cacheDuration := by
  simp [handleRequest, hstale, hlate]

/-- Witness for C9: a refresh at check time 0 completing at time 100, probed
just past one cache window after completion. -/
theorem lastFetch_sampled_after_fetch_witness :
    ((0 : Int) - (initState 0).lastFetch > cacheDuration) ∧
    ((100 + cacheDuration + 1 : Int) - 100 > cacheDuration) ∧
    ((handleRequest (.ok []) (initState 0) 0 100).1.lastFetch = 100 ∧
     (100 + cacheDuration + 1 : Int) -
       (handleRequest (.ok []) (initState 0) 0 100).1.lastFetch > cacheDuration) :=
  ⟨by decide, by decide,
   lastFetch_sampled_after_fetch [] (initState 0) 0 100 (100 + cacheDuration + 1)
     (by decide) (by decide)⟩

/-- C10: the search lower bound is recomputed per invocation as seven days
before that invocation's `time.Now()`: for every invocation time `now`, the
pipeline's outcome depends on the search capability only through its
responses at `PublishedAfter = now - weekNanos` for the listed channels. -/
theorem search_bound_week_before_invocation (parse : String → Option Int)
    (s1 s2 : String → Int → Except String (List SearchItem))
    (videosList : List String → Except String (List DetailItem))
    (channelNames : String → String) (channelIDs : List String) (now : Int)
    (h : ∀ c ∈ channelIDs, s1 c (now - weekNanos) = s2 c (now - weekNanos)) :
    fetchLatestVideos parse s1 videosList channelNames channelIDs now =
    fetchLatestVideos parse s2 videosList channelNames channelIDs now := by
  have hcs : collectSearch parse s1 channelNames (now - weekNanos) channelIDs =
      collectSearch parse s2 channelNames (now - weekNanos) channelIDs := by
    induction channelIDs with
    | nil => rfl
    | cons c cs ih =>
      simp only [collectSearch]
      rw [h c (by simp)]
      cases s2 c (now - weekNanos) with
      | error e => rfl
      | ok items =>
        rw [ih (fun c' hc' => h c' (by simp [hc']))]
  simp [fetchLatestVideos, hcs]

/-- Witness for C10 with one channel and agreeing search responses. -/
theorem search_bound_week_before_invocation_witness :
    (∀ c ∈ ["UC3MBGrjXHkLqo0Bs4CktzpQ"],
      (fun (_ : String) (_ : Int) => (Except.ok (ε := String) ([] : List SearchItem))) c (0 - weekNanos) =
      (fun (_ : String) (_ : Int) => (Except.ok (ε := String) ([] : List SearchItem))) c (0 - weekNanos)) ∧
    fetchLatestVideos (fun _ => none)
      (fun _ _ => .ok []) (fun _ => .error "down") (fun _ => "")
      ["UC3MBGrjXHkLqo0Bs4CktzpQ"] 0 =
    fetchLatestVideos (fun _ => none)
      (fun _ _ => .ok []) (fun _ => .error "down") (fun _ => "")
      ["UC3MBGrjXHkLqo0Bs4CktzpQ"] 0 :=
  ⟨fun _ _ => rfl,
   search_bound_week_before_invocation (fun _ => none) (fun _ _ => .ok [])
     (fun _ _ => .ok []) (fun _ => .error "down") (fun _ => "")
     ["UC3MBGrjXHkLqo0Bs4CktzpQ"] 0 (fun _ _ => rfl)⟩

/-- C3: every successful `fetchLatestVideos` result is sorted by published
timestamp descending: each adjacent pair `(a, b)` satisfies
`a.published ≥ b.published`. -/
theorem fetch_sorted_descending (parse : String → Option Int)
    (searchList : String → Int → Except String (List SearchItem))
    (videosList : List String → Except String (List DetailItem))
    (channelNames : String → String) (channelIDs : List String)
    (now : Int) (vs : List Video)
    (h : fetchLatestVideos parse searchList videosList channelNames channelIDs now = .ok vs) :
    ∀ (i : Nat) (hi : i + 1 < vs.length),
      (vs.get ⟨i + 1, hi⟩).published ≤ (vs.get ⟨i, Nat.lt_of_succ_lt hi⟩).published := by
  obtain ⟨base, -, hvs⟩ :=
    fetch_ok_iff parse searchList videosList channelNames channelIDs now vs h
  intro i hi
  have hsorted : List.Sorted videoLe vs := by
    rw [hvs]
    exact List.sorted_insertionSort videoLe _
  have := hsorted.rel_get_of_lt
    (a := ⟨i, Nat.lt_of_succ_lt hi⟩) (b := ⟨i + 1, hi⟩) (by simp)
  simpa [videoLe] using this

/-- Witness for C3: the concrete two-item fetch returns `[exVideoB, exVideoA]`
(published 9 before 5) and its one adjacent pair is descending. -/
theorem fetch_sorted_descending_witness :
    (fetchLatestVideos exParse (fun _ _ => .ok [exItemA, exItemB])
        (fun _ => .ok []) (fun _ => "N") ["c"] 0 = .ok [exVideoB, exVideoA]) ∧
    (([exVideoB, exVideoA].get ⟨1, by decide⟩).published ≤
      ([exVideoB, exVideoA].get ⟨0, by decide⟩).published) :=
  ⟨rfl,
   fetch_sorted_descending exParse (fun _ _ => .ok [exItemA, exItemB])
     (fun _ => .ok []) (fun _ => "N") ["c"] 0 [exVideoB, exVideoA] rfl
     0 (by decide)⟩

/-- Dropping an item whose published timestamp does not parse leaves the
per-channel record list of the remaining items unchanged. -/
theorem parseItems_drop_bad (parse : String → Option Int) (name : String)
    (pre post : List SearchItem) (bad : SearchItem)
    (hbad : parse bad.publishedAt = none) :
    parseItems parse name (pre ++ bad :: post) = parseItems parse name (pre ++ post) := by
  simp [parseItems, List.filterMap_append, List.filterMap_cons, hbad]

/-- C6: an item with an unparsable published timestamp is dropped
individually and silently: a run whose search response for channel `c0`
contains the malformed item produces exactly the same outcome (success and
records included) as the run whose response omits it, all else equal. -/
theorem malformed_item_dropped_individually (parse : String → Option Int)
    (s1 s2 : String → Int → Except String (List SearchItem))
    (videosList : List String → Except String (List DetailItem))
    (channelNames : String → String) (channelIDs : List String) (now : Int)
    (c0 : String) (pre post : List SearchItem) (bad : SearchItem)
    (hbad : parse bad.publishedAt = none)
    (h1 : ∀ b, s1 c0 b = .ok (pre ++ bad :: post))
    (h2 : ∀ b, s2 c0 b = .ok (pre ++ post))
    (hother : ∀ c b, c ≠ c0 → s1 c b = s2 c b) :
    fetchLatestVideos parse s1 videosList channelNames channelIDs now =
    fetchLatestVideos parse s2 videosList channelNames channelIDs now := by
  have hcs : ∀ (cs : List String),
      collectSearch parse s1 channelNames (now - weekNanos) cs =
      collectSearch parse s2 channelNames (now - weekNanos) cs := by
    intro cs
    induction cs with
    | nil => rfl
    | cons c cs ih =>
      simp only [collectSearch]
      by_cases hc : c = c0
      · subst hc
        rw [h1, h2, ih]
        cases collectSearch parse s2 channelNames (now - weekNanos) cs with
        | error e => rfl
        | ok rest =>
          show Except.ok (parseItems parse (channelNames c) (pre ++ bad :: post) ++ rest) = _
          rw [parseItems_drop_bad parse _ pre post bad hbad]
      · rw [hother c _ hc, ih]
  simp [fetchLatestVideos, hcs]

/-- Witness for C6: one channel whose response contains `exItemBad` between
`exItemA` and `exItemB`; the outcome equals the run without the bad item. -/
theorem malformed_item_dropped_individually_witness :
    (exParse exItemBad.publishedAt = none) ∧
    fetchLatestVideos exParse exSearchWithBad
      (fun _ => .ok []) (fun _ => "N") ["c"] 0 =
    fetchLatestVideos exParse exSearchNoBad
      (fun _ => .ok []) (fun _ => "N") ["c"] 0 :=
  ⟨by decide,
   malformed_item_dropped_individually exParse exSearchWithBad exSearchNoBad
     (fun _ => .ok []) (fun _ => "N") ["c"] 0
     "c" [exItemA] [exItemB] exItemBad (by decide)
     (fun _ => by simp [exSearchWithBad]) (fun _ => by simp [exSearchNoBad])
     (fun c b hc => by simp [exSearchWithBad, exSearchNoBad, hc])⟩

/-- `stepItem` never changes the video id. -/
theorem stepItem_videoId (parse : String → Option Int) (it : DetailItem) (v : Video) :
    (stepItem parse it v).videoId = v.videoId := by
  unfold stepItem
  repeat' split
  all_goals rfl

/-- `stepItem` never changes the live status. -/
theorem stepItem_liveStatus (parse : String → Option Int) (it : DetailItem) (v : Video) :
    (stepItem parse it v).liveStatus = v.liveStatus := by
  unfold stepItem
  repeat' split
  all_goals rfl

/-- `stepItem` never changes the published time. -/
theorem stepItem_published (parse : String → Option Int) (it : DetailItem) (v : Video) :
    (stepItem parse it v).published = v.published := by
  unfold stepItem
  repeat' split
  all_goals rfl

/-- Folding `stepItem` over a batch's items never changes the video id. -/
theorem foldl_stepItem_videoId (parse : String → Option Int) (items : List DetailItem)
    (v : Video) :
    (items.foldl (fun acc it => stepItem parse it acc) v).videoId = v.videoId := by
  induction items generalizing v with
  | nil => rfl
  | cons it its ih => rw [List.foldl_cons, ih, stepItem_videoId]

/-- Folding `stepItem` over a batch's items never changes the live status. -/
theorem foldl_stepItem_liveStatus (parse : String → Option Int) (items : List DetailItem)
    (v : Video) :
    (items.foldl (fun acc it => stepItem parse it acc) v).liveStatus = v.liveStatus := by
  induction items generalizing v with
  | nil => rfl
  | cons it its ih => rw [List.foldl_cons, ih, stepItem_liveStatus]

/-- Folding `stepItem` over a batch's items never changes the published time. -/
theorem foldl_stepItem_published (parse : String → Option Int) (items : List DetailItem)
    (v : Video) :
    (items.foldl (fun acc it => stepItem parse it acc) v).published = v.published := by
  induction items generalizing v with
  | nil => rfl
  | cons it its ih => rw [List.foldl_cons, ih, stepItem_published]

/-- `stepBatch` never changes the video id. -/
theorem stepBatch_videoId (parse : String → Option Int)
    (videosList : List String → Except String (List DetailItem))
    (batch : List String) (v : Video) :
    (stepBatch parse videosList batch v).videoId = v.videoId := by
  unfold stepBatch
  split
  · rfl
  · exact foldl_stepItem_videoId _ _ _

/-- `stepBatch` never changes the live status. -/
theorem stepBatch_liveStatus (parse : String → Option Int)
    (videosList : List String → Except String (List DetailItem))
    (batch : List String) (v : Video) :
    (stepBatch parse videosList batch v).liveStatus = v.liveStatus := by
  unfold stepBatch
  split
  · rfl
  · exact foldl_stepItem_liveStatus _ _ _

/-- `stepBatch` never changes the published time. -/
theorem stepBatch_published (parse : String → Option Int)
    (videosList : List String → Except String (List DetailItem))
    (batch : List String) (v : Video) :
    (stepBatch parse videosList batch v).published = v.published := by
  unfold stepBatch
  split
  · rfl
  · exact foldl_stepItem_published _ _ _

/-- `enrichVideo` never changes the video id. -/
theorem enrichVideo_videoId (parse : String → Option Int)
    (videosList : List String → Except String (List DetailItem))
    (batches : List (List String)) (v : Video) :
    (enrichVideo parse videosList batches v).videoId = v.videoId := by
  induction batches generalizing v with
  | nil => rfl
  | cons b bs ih =>
    unfold enrichVideo at *
    rw [List.foldl_cons, ih, stepBatch_videoId]

/-- `enrichVideo` never changes the live status. -/
theorem enrichVideo_liveStatus (parse : String → Option Int)
    (videosList : List String → Except String (List DetailItem))
    (batches : List (List String)) (v : Video) :
    (enrichVideo parse videosList batches v).liveStatus = v.liveStatus := by
  induction batches generalizing v with
  | nil => rfl
  | cons b bs ih =>
    unfold enrichVideo at *
    rw [List.foldl_cons, ih, stepBatch_liveStatus]

/-- `enrichVideo` never changes the published time. -/
theorem enrichVideo_published (parse : String → Option Int)
    (videosList : List String → Except String (List DetailItem))
    (batches : List (List String)) (v : Video) :
    (enrichVideo parse videosList batches v).published = v.published := by
  induction batches generalizing v with
  | nil => rfl
  | cons b bs ih =>
    unfold enrichVideo at *
    rw [List.foldl_cons, ih, stepBatch_published]

/-- With pairwise-distinct video ids, updating the first match is updating
every match: `setSched` is a pointwise map. -/
theorem setSched_eq_map (id : String) (t : Int) (vs : List Video)
    (hnd : (vs.map Video.videoId).Nodup) :
    setSched id t vs =
      vs.map (fun v => if v.videoId = id then { v with scheduledStartTime := some t } else v) := by
  induction vs with
  | nil => rfl
  | cons v vs ih =>
    simp only [List.map_cons, List.nodup_cons] at hnd
    obtain ⟨hv, hnd⟩ := hnd
    simp only [setSched, List.map_cons]
    by_cases h : v.videoId = id
    · rw [if_pos h, if_pos h]
      have hid : ∀ w ∈ vs, (if w.videoId = id then { w with scheduledStartTime := some t } else w) = w := by
        intro w hw
        rw [if_neg]
        intro hwid
        have hmem : w.videoId ∈ List.map Video.videoId vs := List.mem_map_of_mem Video.videoId hw
        rw [hwid, ← h] at hmem
        exact hv hmem
      rw [List.map_congr_left hid]
      simp
    · rw [if_neg h, if_neg h, ih hnd]

/-- `splitChunksGo` ignores the exact fuel as long as it covers the list
length. -/
theorem splitChunksGo_congr (f1 : Nat) : ∀ (f2 : Nat) (ids : List String) (n : Nat),
    ids.length ≤ f1 → ids.length ≤ f2 → splitChunksGo f1 ids n = splitChunksGo f2 ids n := by
  induction f1 with
  | zero =>
    intro f2 ids n h1 h2
    have : ids = [] := List.eq_nil_of_length_eq_zero (Nat.le_zero.mp h1)
    subst this
    cases f2 <;> rfl
  | succ g1 ih =>
    intro f2 ids n h1 h2
    cases ids with
    | nil => cases f2 <;> rfl
    | cons a l =>
      cases n with
      | zero => cases f2 with
        | zero => simp at h2
        | succ g2 => rfl
      | succ m =>
        cases f2 with
        | zero => simp at h2
        | succ g2 =>
          show _ :: _ = _ :: _
          congr 1
          apply ih
          · simpa using Nat.le_trans (Nat.sub_le _ _) (Nat.lt_succ_iff.mp (Nat.lt_of_lt_of_le (Nat.lt_succ_of_le (Nat.le_refl _)) h1))
          · simpa using Nat.le_trans (Nat.sub_le _ _) (Nat.lt_succ_iff.mp (Nat.lt_of_lt_of_le (Nat.lt_succ_of_le (Nat.le_refl _)) h2))

/-- The unfolding equation of `splitChunks` on a non-empty list and a
positive chunk size. -/
theorem splitChunks_cons (ids : List String) (n : Nat) (hne : ids ≠ []) (hn : n ≠ 0) :
    splitChunks ids n = ids.take n :: splitChunks (ids.drop n) n := by
  cases ids with
  | nil => exact absurd rfl hne
  | cons a l =>
    cases n with
    | zero => exact absurd rfl hn
    | succ m =>
      show splitChunksGo (l.length + 1) (a :: l) (m + 1) = _
      show _ :: splitChunksGo l.length ((a :: l).drop (m + 1)) (m + 1) = _
      congr 1
      apply splitChunksGo_congr
      · simp
      · exact Nat.le_refl _

/-- The chunks of `splitChunks` concatenate back to the original list. -/
theorem splitChunks_flatten (l : List String) (n : Nat) (hn : n ≠ 0) :
    (splitChunks l n).flatten = l := by
  by_cases h : l = []
  · subst h; rfl
  · rw [splitChunks_cons l n h hn, List.flatten_cons,
      splitChunks_flatten (l.drop n) n hn, List.take_append_drop]
termination_by l.length
decreasing_by
  simp only [List.length_drop]
  have : 0 < l.length := List.length_pos.mpr h
  omega

/-- Membership in `upcomingIDs`: exactly the ids of upcoming videos. -/
theorem mem_upcomingIDs (id : String) (vs : List Video) :
    id ∈ upcomingIDs vs ↔ ∃ w ∈ vs, w.liveStatus = "upcoming" ∧ w.videoId = id := by
  simp only [upcomingIDs, List.mem_map, List.mem_filter, decide_eq_true_eq]
  constructor
  · rintro ⟨w, ⟨hw, hup⟩, hid⟩
    exact ⟨w, hw, hup, hid⟩
  · rintro ⟨w, hw, hup, hid⟩
    exact ⟨w, ⟨hw, hup⟩, hid⟩

/-- A map by a function that fixes every member is the identity. -/
theorem listMap_eq_self {α : Type} (vs : List α) (f : α → α)
    (h : ∀ v ∈ vs, f v = v) : vs.map f = vs := by
  rw [List.map_congr_left h]
  exact List.map_id vs

/-- Applying one detail item is a pointwise map when video ids are distinct. -/
theorem applyDetails_one (parse : String → Option Int) (it : DetailItem)
    (vs : List Video) (hnd : (vs.map Video.videoId).Nodup) :
    applyDetails parse [it] vs = vs.map (stepItem parse it) := by
  unfold applyDetails
  rw [List.foldl_cons, List.foldl_nil]
  cases hd : it.liveStreamingDetails with
  | none => exact (listMap_eq_self vs _ fun v _ => by simp [stepItem, hd]).symm
  | some s =>
    by_cases hs : s = ""
    · simp only [hs, if_pos]
      exact (listMap_eq_self vs _ fun v _ => by simp [stepItem, hd, hs]).symm
    · cases hp : parse s with
      | none =>
        simp only [hs, hp, if_neg]
        exact (listMap_eq_self vs _ fun v _ => by simp [stepItem, hd, hs, hp]).symm
      | some sched =>
        simp only [hs, hp, if_neg]
        rw [setSched_eq_map it.id sched vs hnd]
        exact List.map_congr_left fun v _ => by simp [stepItem, hd, hs, hp]

/-- Video ids survive a `stepItem` map. -/
theorem map_stepItem_videoId (parse : String → Option Int) (it : DetailItem)
    (vs : List Video) :
    (vs.map (stepItem parse it)).map Video.videoId = vs.map Video.videoId := by
  rw [List.map_map]
  exact List.map_congr_left fun v _ => stepItem_videoId parse it v

/-- Applying one successful batch's items is a pointwise map when video ids
are distinct. -/
theorem applyDetails_eq_map (parse : String → Option Int) (items : List DetailItem)
    (vs : List Video) (hnd : (vs.map Video.videoId).Nodup) :
    applyDetails parse items vs =
      vs.map (fun v => items.foldl (fun acc it => stepItem parse it acc) v) := by
  induction items generalizing vs with
  | nil => simp [applyDetails]
  | cons it its ih =>
    have h1 : applyDetails parse (it :: its) vs =
        applyDetails parse its (applyDetails parse [it] vs) := by
      unfold applyDetails
      rw [List.foldl_cons, List.foldl_cons, List.foldl_nil]
    have hnd2 : ((vs.map (stepItem parse it)).map Video.videoId).Nodup := by
      rw [map_stepItem_videoId]; exact hnd
    rw [h1, applyDetails_one parse it vs hnd, ih _ hnd2, List.map_map]
    exact List.map_congr_left fun v _ => by simp

/-- Folding the enrichment batches is a pointwise map when video ids are
distinct. -/
theorem foldl_batches_eq_map (parse : String → Option Int)
    (videosList : List String → Except String (List DetailItem))
    (batches : List (List String)) (vs : List Video)
    (hnd : (vs.map Video.videoId).Nodup) :
    batches.foldl (fun acc batch =>
      match videosList batch with
      | .error _ => acc
      | .ok items => applyDetails parse items acc) vs
    = vs.map (enrichVideo parse videosList batches) := by
  induction batches generalizing vs with
  | nil =>
    rw [List.foldl_nil]
    exact (listMap_eq_self vs _ fun v _ => by simp [enrichVideo]).symm
  | cons b bs ih =>
    rw [List.foldl_cons]
    have hstep : (match videosList b with
        | .error _ => vs
        | .ok items => applyDetails parse items vs) = vs.map (stepBatch parse videosList b) := by
      cases hvb : videosList b with
      | error e =>
        simp only [hvb]
        exact (listMap_eq_self vs _ fun v _ => by simp [stepBatch, hvb]).symm
      | ok items =>
        simp only
        rw [applyDetails_eq_map parse items vs hnd]
        exact List.map_congr_left fun v _ => by simp [stepBatch, hvb]
    have hnd2 : ((vs.map (stepBatch parse videosList b)).map Video.videoId).Nodup := by
      rw [List.map_map]
      have heq : vs.map (Video.videoId ∘ stepBatch parse videosList b) = vs.map Video.videoId :=
        List.map_congr_left fun v _ => stepBatch_videoId parse videosList b v
      rw [heq]; exact hnd
    rw [hstep, ih _ hnd2, List.map_map]
    exact List.map_congr_left fun v _ => by simp [enrichVideo, List.foldl_cons]

/-- The enrichment phase is a pointwise map over the collected videos when
video ids are distinct: each video is transformed by `enrichVideo` over the
batches of its run. -/
theorem enrich_eq_map (parse : String → Option Int)
    (videosList : List String → Except String (List DetailItem))
    (vs : List Video) (hnd : (vs.map Video.videoId).Nodup) :
    enrich parse videosList vs =
      vs.map (enrichVideo parse videosList (splitChunks (upcomingIDs vs) 50)) := by
  unfold enrich
  by_cases h : (upcomingIDs vs).length > 0
  · rw [if_pos h]
    exact foldl_batches_eq_map parse videosList _ vs hnd
  · rw [if_neg h]
    have hnil : upcomingIDs vs = [] := by
      cases hu : upcomingIDs vs with
      | nil => rfl
      | cons a l => rw [hu] at h; simp at h
    rw [hnil]
    have hchunks : splitChunks [] 50 = [] := rfl
    rw [hchunks]
    exact (listMap_eq_self vs _ fun v _ => by simp [enrichVideo]).symm

/-- One detail item leaves the scheduled start time set iff it was already
set or the item is a good match for this video's id. -/
theorem stepItem_sched (parse : String → Option Int) (it : DetailItem) (v : Video) :
    (stepItem parse it v).scheduledStartTime.isSome ↔
      v.scheduledStartTime.isSome ∨ matchGood parse v.videoId it := by
  unfold stepItem matchGood
  cases hd : it.liveStreamingDetails with
  | none => simp [hd]
  | some s =>
    by_cases hs : s = ""
    · simp only [hs, if_pos]
      simp [hd, hs]
    · cases hp : parse s with
      | none => simp [hd, hs, hp]
      | some sched =>
        simp only [hs, hp, if_neg]
        by_cases hv : v.videoId = it.id
        · rw [if_pos hv]
          constructor
          · intro _
            exact Or.inr ⟨hv.symm, s, rfl, hs, by rw [hp]; rfl⟩
          · intro _
            rfl
        · rw [if_neg hv]
          constructor
          · exact Or.inl
          · rintro (h | ⟨h1, -⟩)
            · exact h
            · exact absurd h1.symm hv

/-- One successful batch's items leave the scheduled start time set iff
it was already set or some item is a good match. -/
theorem foldl_stepItem_sched (parse : String → Option Int) (items : List DetailItem)
    (v : Video) :
    ((items.foldl (fun acc it => stepItem parse it acc) v)).scheduledStartTime.isSome ↔
      v.scheduledStartTime.isSome ∨ ∃ it ∈ items, matchGood parse v.videoId it := by
  induction items generalizing v with
  | nil => simp
  | cons it its ih =>
    rw [List.foldl_cons, ih, stepItem_sched]
    rw [stepItem_videoId]
    constructor
    · rintro (⟨h | h⟩ | ⟨it', h1, h2⟩)
      · exact Or.inl h
      · exact Or.inr ⟨it, by simp, h⟩
      · exact Or.inr ⟨it', by simp [h1], h2⟩
    · rintro (h | ⟨it', h1, h2⟩)
      · exact Or.inl (Or.inl h)
      · rcases List.mem_cons.mp h1 with h1 | h1
        · exact Or.inl (Or.inr (h1 ▸ h2))
        · exact Or.inr ⟨it', h1, h2⟩

/-- A batch leaves the scheduled start time set iff it was already set or
the batch succeeded with a good matching item. -/
theorem stepBatch_sched (parse : String → Option Int)
    (videosList : List String → Except String (List DetailItem))
    (b : List String) (v : Video) :
    (stepBatch parse videosList b v).scheduledStartTime.isSome ↔
      v.scheduledStartTime.isSome ∨
        ∃ items, videosList b = .ok items ∧ ∃ it ∈ items, matchGood parse v.videoId it := by
  unfold stepBatch
  cases hvb : videosList b with
  | error e => simp [hvb]
  | ok items => simp [hvb, foldl_stepItem_sched]

/-- The full enrichment of one video leaves the scheduled start time set iff
it was already set or some batch succeeded with a good matching item. -/
theorem enrichVideo_sched (parse : String → Option Int)
    (videosList : List String → Except String (List DetailItem))
    (batches : List (List String)) (v : Video) :
    (enrichVideo parse videosList batches v).scheduledStartTime.isSome ↔
      v.scheduledStartTime.isSome ∨
        ∃ b ∈ batches, ∃ items, videosList b = .ok items ∧
          ∃ it ∈ items, matchGood parse v.videoId it := by
  induction batches generalizing v with
  | nil => simp [enrichVideo]
  | cons b bs ih =>
    have hcons : enrichVideo parse videosList (b :: bs) v =
        enrichVideo parse videosList bs (stepBatch parse videosList b v) := by
      unfold enrichVideo
      rw [List.foldl_cons]
    rw [hcons, ih, stepBatch_sched, stepBatch_videoId]
    constructor
    · rintro (⟨h | ⟨items, h1, h2⟩⟩ | ⟨b', h1, h2⟩)
      · exact Or.inl h
      · exact Or.inr ⟨b, by simp, items, h1, h2⟩
      · exact Or.inr ⟨b', by simp [h1], h2⟩
    · rintro (h | ⟨b', h1, h2⟩)
      · exact Or.inl (Or.inl h)
      · rcases List.mem_cons.mp h1 with h1 | h1
        · exact Or.inl (Or.inr (h1 ▸ h2))
        · exact Or.inr ⟨b', h1, h2⟩

/-- Every record built by `parseItems` has no scheduled start time. -/
theorem parseItems_sched_none (parse : String → Option Int) (name : String)
    (items : List SearchItem) :
    ∀ v ∈ parseItems parse name items, v.scheduledStartTime = none := by
  intro v hv
  simp only [parseItems, List.mem_filterMap] at hv
  obtain ⟨item, -, hmap⟩ := hv
  cases hp : parse item.publishedAt with
  | none => rw [hp] at hmap; exact absurd hmap (by simp)
  | some t =>
    rw [hp] at hmap
    simp only [Option.map_some'] at hmap
    injection hmap with hmap
    rw [← hmap]
    rfl

/-- Every record collected from the searches has no scheduled start time. -/
theorem collectSearch_sched_none (parse : String → Option Int)
    (searchList : String → Int → Except String (List SearchItem))
    (channelNames : String → String) (weekAgo : Int) (cids : List String)
    (base : List Video)
    (h : collectSearch parse searchList channelNames weekAgo cids = .ok base) :
    ∀ v ∈ base, v.scheduledStartTime = none := by
  induction cids generalizing base with
  | nil =>
    unfold collectSearch at h
    injection h with h
    rw [← h]
    simp
  | cons c cs ih =>
    unfold collectSearch at h
    cases h1 : searchList c weekAgo with
    | error e => rw [h1] at h; exact absurd h (by simp)
    | ok items =>
      rw [h1] at h
      cases h2 : collectSearch parse searchList channelNames weekAgo cs with
      | error e => rw [h2] at h; exact absurd h (by simp)
      | ok rest =>
        rw [h2] at h
        injection h with h
        rw [← h]
        intro v hv
        rcases List.mem_append.mp hv with hv | hv
        · exact parseItems_sched_none parse _ items v hv
        · exact ih rest h2 v hv

/-- C4: in a successful fetch whose collected records have pairwise-distinct
video ids and whose detail responses mention only requested ids, a returned
record's scheduled start time is set iff its live status is `"upcoming"` and
some enrichment batch succeeded with a non-empty, parsable detail matching
its id; in particular it is never set on a non-upcoming record. -/
theorem sched_set_iff_upcoming_enriched (parse : String → Option Int)
    (searchList : String → Int → Except String (List SearchItem))
    (videosList : List String → Except String (List DetailItem))
    (channelNames : String → String) (channelIDs : List String)
    (now : Int) (vs base : List Video)
    (hfetch : fetchLatestVideos parse searchList videosList channelNames channelIDs now = .ok vs)
    (hbase : collectSearch parse searchList channelNames (now - weekNanos) channelIDs = .ok base)
    (hnd : (base.map Video.videoId).Nodup)
    (hhonest : ∀ b ∈ splitChunks (upcomingIDs base) 50, ∀ items,
      videosList b = .ok items → ∀ it ∈ items, it.id ∈ b) :
    ∀ v ∈ vs, (v.scheduledStartTime.isSome ↔
      (v.liveStatus = "upcoming" ∧
        ∃ b ∈ splitChunks (upcomingIDs base) 50, ∃ items, videosList b = .ok items ∧
          ∃ it ∈ items, matchGood parse v.videoId it)) := by
  obtain ⟨base', hbase', hvs⟩ :=
    fetch_ok_iff parse searchList videosList channelNames channelIDs now vs hfetch
  rw [hbase] at hbase'
  injection hbase' with hbase'
  subst hbase'
  intro v hv
  rw [hvs] at hv
  have hv2 : v ∈ enrich parse videosList base :=
    (List.perm_insertionSort videoLe _).mem_iff.mp hv
  rw [enrich_eq_map parse videosList base hnd] at hv2
  obtain ⟨w, hw, hwv⟩ := List.mem_map.mp hv2
  subst hwv
  rw [enrichVideo_videoId, enrichVideo_liveStatus, enrichVideo_sched]
  have hwnone : w.scheduledStartTime = none :=
    collectSearch_sched_none parse searchList channelNames (now - weekNanos)
      channelIDs base hbase w hw
  rw [hwnone]
  simp only [Option.isSome_none, Bool.false_eq_true, false_or]
  constructor
  · intro hE
    refine ⟨?_, hE⟩
    obtain ⟨b, hb, items, hok, it, hit, hgood⟩ := hE
    have hidb : it.id ∈ b := hhonest b hb items hok it hit
    have hflat : it.id ∈ (splitChunks (upcomingIDs base) 50).flatten :=
      List.mem_flatten.mpr ⟨b, hb, hidb⟩
    rw [splitChunks_flatten _ 50 (by norm_num)] at hflat
    obtain ⟨u, hu, hup, huid⟩ := (mem_upcomingIDs it.id base).mp hflat
    have huw : u = w := List.inj_on_of_nodup_map hnd hu hw (by rw [huid, hgood.1])
    rw [← huw]
    exact hup
  · exact And.right

/-- Witness for C4: the concrete one-channel scenario with one upcoming
video and a well-behaved detail capability; the upcoming record comes back
enriched and the iff holds for it. -/
theorem sched_set_iff_upcoming_enriched_witness :
    (fetchLatestVideos exParse exSearchUp exDetailsOk (fun _ => "N") ["c"] 0 =
      .ok [exVideoUpSched, exVideoA]) ∧
    (collectSearch exParse exSearchUp (fun _ => "N") (0 - weekNanos) ["c"] =
      .ok [exVideoA, exVideoUp]) ∧
    (([exVideoA, exVideoUp].map Video.videoId).Nodup) ∧
    (exVideoUpSched ∈ [exVideoUpSched, exVideoA]) ∧
    (exVideoUpSched.scheduledStartTime.isSome ↔
      (exVideoUpSched.liveStatus = "upcoming" ∧
        ∃ b ∈ splitChunks (upcomingIDs [exVideoA, exVideoUp]) 50, ∃ items,
          exDetailsOk b = .ok items ∧
            ∃ it ∈ items, matchGood exParse exVideoUpSched.videoId it)) :=
  ⟨rfl, rfl, by decide, by decide,
   sched_set_iff_upcoming_enriched exParse exSearchUp exDetailsOk (fun _ => "N")
     ["c"] 0 [exVideoUpSched, exVideoA] [exVideoA, exVideoUp] rfl rfl (by decide)
     (by
       intro b hb items hitems it hit
       have hb1 : b = ["vU"] := by
         have hch : splitChunks (upcomingIDs [exVideoA, exVideoUp]) 50 = [["vU"]] := by decide
         rw [hch] at hb
         simpa using hb
       subst hb1
       have hit1 : items = [{ id := "vU", liveStreamingDetails := some "20" }] := by
         have hok : exDetailsOk ["vU"] =
             .ok [{ id := "vU", liveStreamingDetails := some "20" }] := rfl
         rw [hok] at hitems
         injection hitems with h
         exact h.symm
       subst hit1
       have hit2 : it = { id := "vU", liveStreamingDetails := some "20" } := by simpa using hit
       subst hit2
       decide)
     exVideoUpSched (by decide)⟩

/-- C7: enrichment failures never fail the pipeline (for any detail
capability the fetch still succeeds), and an upcoming video whose own detail
batch fails comes back in the final list with live status `"upcoming"` and
no scheduled start time, given distinct ids and honest responses elsewhere. -/
theorem upcoming_survives_failed_batch (parse : String → Option Int)
    (searchList : String → Int → Except String (List SearchItem))
    (videosList : List String → Except String (List DetailItem))
    (channelNames : String → String) (channelIDs : List String) (now : Int)
    (base : List Video) (w : Video) (b : List String) (e : String)
    (hbase : collectSearch parse searchList channelNames (now - weekNanos) channelIDs = .ok base)
    (hnd : (base.map Video.videoId).Nodup)
    (hhonest : ∀ b' ∈ splitChunks (upcomingIDs base) 50, ∀ items,
      videosList b' = .ok items → ∀ it ∈ items, it.id ∈ b')
    (hw : w ∈ base) (hup : w.liveStatus = "upcoming")
    (hb : b ∈ splitChunks (upcomingIDs base) 50)
    (hwb : w.videoId ∈ b)
    (hfail : videosList b = .error e) :
    (∀ videosList' : List String → Except String (List DetailItem),
      ∃ out, fetchLatestVideos parse searchList videosList' channelNames channelIDs now = .ok out) ∧
    ∃ vs, fetchLatestVideos parse searchList videosList channelNames channelIDs now = .ok vs ∧
      ∃ v ∈ vs, v.videoId = w.videoId ∧ v.liveStatus = "upcoming" ∧
        v.scheduledStartTime = none := by
  constructor
  · intro videosList'
    refine ⟨List.insertionSort videoLe (enrich parse videosList' base), ?_⟩
    unfold fetchLatestVideos
    rw [hbase]
  · refine ⟨List.insertionSort videoLe (enrich parse videosList base), ?_, ?_⟩
    · unfold fetchLatestVideos
      rw [hbase]
    · refine ⟨enrichVideo parse videosList (splitChunks (upcomingIDs base) 50) w, ?_, ?_, ?_, ?_⟩
      · apply (List.perm_insertionSort videoLe _).mem_iff.mpr
        rw [enrich_eq_map parse videosList base hnd]
        exact List.mem_map_of_mem _ hw
      · exact enrichVideo_videoId parse videosList _ w
      · rw [enrichVideo_liveStatus]
        exact hup
      · rw [← Option.not_isSome_iff_eq_none, enrichVideo_sched,
          collectSearch_sched_none parse searchList channelNames (now - weekNanos)
            channelIDs base hbase w hw]
        simp only [Option.isSome_none, Bool.false_eq_true, false_or]
        rintro ⟨b', hb', items, hok, it, hit, hgood⟩
        have hidb : it.id ∈ b' := hhonest b' hb' items hok it hit
        have hne : b' ≠ b := by
          rintro rfl
          rw [hfail] at hok
          exact absurd hok (by simp)
        have hndup : (upcomingIDs base).Nodup := by
          have hsub : List.Sublist (upcomingIDs base) (base.map Video.videoId) :=
            List.Sublist.map Video.videoId (List.filter_sublist base)
          exact hnd.sublist hsub
        have hflatnd : ((splitChunks (upcomingIDs base) 50).flatten).Nodup := by
          rw [splitChunks_flatten _ 50 (by norm_num)]
          exact hndup
        have hdisj : List.Pairwise List.Disjoint (splitChunks (upcomingIDs base) 50) :=
          (List.nodup_flatten.mp hflatnd).2
        have hdis : List.Disjoint b' b :=
          hdisj.forall (fun _ _ h => h.symm) hb' hb hne
        exact hdis hidb (by rw [hgood.1]; exact hwb)

/-- Witness for C7: the one-channel scenario with one upcoming video and a
detail capability that always fails; the upcoming record survives
unenriched. -/
theorem upcoming_survives_failed_batch_witness :
    (collectSearch exParse exSearchUp (fun _ => "N") (0 - weekNanos) ["c"] =
      .ok [exVideoA, exVideoUp]) ∧
    (exVideoUp ∈ [exVideoA, exVideoUp]) ∧
    (["vU"] ∈ splitChunks (upcomingIDs [exVideoA, exVideoUp]) 50) ∧
    (exDetailsFail ["vU"] = .error "down") ∧
    ((∀ videosList' : List String → Except String (List DetailItem),
        ∃ out, fetchLatestVideos exParse exSearchUp videosList' (fun _ => "N") ["c"] 0 = .ok out) ∧
      ∃ vs, fetchLatestVideos exParse exSearchUp exDetailsFail (fun _ => "N") ["c"] 0 = .ok vs ∧
        ∃ v ∈ vs, v.videoId = exVideoUp.videoId ∧ v.liveStatus = "upcoming" ∧
          v.scheduledStartTime = none) :=
  ⟨rfl, by decide, by decide, rfl,
   upcoming_survives_failed_batch exParse exSearchUp exDetailsFail (fun _ => "N")
     ["c"] 0 [exVideoA, exVideoUp] exVideoUp ["vU"] "down" rfl (by decide)
     (by
       intro b' hb' items hitems it hit
       simp [exDetailsFail] at hitems)
     (by decide) (by decide) (by decide) (by decide) rfl⟩

/-- A detail item for a different id leaves a video unchanged. -/
theorem stepItem_ne (parse : String → Option Int) (it : DetailItem) (v : Video)
    (h : it.id ≠ v.videoId) : stepItem parse it v = v := by
  unfold stepItem
  cases it.liveStreamingDetails with
  | none => rfl
  | some s =>
    by_cases hs : s = ""
    · simp [hs]
    · cases hp : parse s with
      | none => simp [hs, hp]
      | some sched =>
        have hv : v.videoId ≠ it.id := fun hv => h hv.symm
        simp [hs, hp, hv]

/-- Applying the same detail item twice is the same as applying it once. -/
theorem stepItem_idem (parse : String → Option Int) (it : DetailItem) (v : Video) :
    stepItem parse it (stepItem parse it v) = stepItem parse it v := by
  unfold stepItem
  cases it.liveStreamingDetails with
  | none => rfl
  | some s =>
    by_cases hs : s = ""
    · simp [hs]
    · cases hp : parse s with
      | none => simp [hs, hp]
      | some sched =>
        by_cases hv : v.videoId = it.id
        · simp [hs, hp, hv]
        · simp [hs, hp, hv]

/-- Folding the items of a per-id deterministic batch response over one video
reduces to at most one application of its own detail item. -/
theorem foldl_filterMap_itemOf (parse : String → Option Int)
    (itemOf : String → Option DetailItem)
    (hid : ∀ i it, itemOf i = some it → it.id = i)
    (b : List String) (v : Video) :
    (b.filterMap itemOf).foldl (fun acc it => stepItem parse it acc) v =
      match itemOf v.videoId with
      | some it => if v.videoId ∈ b then stepItem parse it v else v
      | none => v := by
  induction b generalizing v with
  | nil =>
    cases itemOf v.videoId with
    | none => rfl
    | some it => simp
  | cons x xs ih =>
    rw [List.filterMap_cons]
    cases hx : itemOf x with
    | none =>
      rw [ih]
      cases hv : itemOf v.videoId with
      | none => rfl
      | some itv =>
        simp only [hv]
        by_cases hvx : v.videoId = x
        · rw [hvx] at hv
          rw [hv] at hx
          exact absurd hx (by simp)
        · simp [List.mem_cons, hvx]
    | some itx =>
      rw [List.foldl_cons, ih (stepItem parse itx v), stepItem_videoId]
      by_cases hvx : v.videoId = x
      · subst hvx
        simp [hx, stepItem_idem]
      · have hne : stepItem parse itx v = v :=
          stepItem_ne parse itx v (by rw [hid x itx hx]; exact fun h => hvx h.symm)
        rw [hne]
        cases hv : itemOf v.videoId with
        | none => rfl
        | some itv =>
          simp only [hv]
          simp [List.mem_cons, hvx]

/-- Against a per-id deterministic detail capability, the cumulative
enrichment of one video depends only on whether its id occurs in some batch
and on its own detail record. -/
theorem enrichVideo_functional (parse : String → Option Int)
    (videosList : List String → Except String (List DetailItem))
    (itemOf : String → Option DetailItem)
    (hid : ∀ i it, itemOf i = some it → it.id = i)
    (batches : List (List String)) (v : Video)
    (hfun : ∀ b ∈ batches, videosList b = .ok (b.filterMap itemOf)) :
    enrichVideo parse videosList batches v =
      if v.videoId ∈ batches.flatten then
        match itemOf v.videoId with
        | some it => stepItem parse it v
        | none => v
      else v := by
  induction batches generalizing v with
  | nil =>
    cases hv : itemOf v.videoId <;> simp [enrichVideo]
  | cons b bs ih =>
    have hcons : enrichVideo parse videosList (b :: bs) v =
        enrichVideo parse videosList bs (stepBatch parse videosList b v) := by
      unfold enrichVideo
      rw [List.foldl_cons]
    have hsb : stepBatch parse videosList b v =
        match itemOf v.videoId with
        | some it => if v.videoId ∈ b then stepItem parse it v else v
        | none => v := by
      unfold stepBatch
      rw [hfun b (by simp)]
      exact foldl_filterMap_itemOf parse itemOf hid b v
    cases hv : itemOf v.videoId with
    | none =>
      simp only [hv] at hsb
      rw [hcons, hsb, ih v (fun b' hb' => hfun b' (by simp [hb']))]
      simp only [hv]
      simp
    | some it =>
      simp only [hv] at hsb
      by_cases hmb : v.videoId ∈ b
      · rw [if_pos hmb] at hsb
        rw [hcons, hsb, ih (stepItem parse it v) (fun b' hb' => hfun b' (by simp [hb']))]
        rw [stepItem_videoId]
        simp only [hv]
        have hm2 : v.videoId ∈ (b :: bs).flatten := by
          rw [List.flatten_cons]
          exact List.mem_append.mpr (Or.inl hmb)
        rw [if_pos hm2]
        by_cases hm : v.videoId ∈ bs.flatten
        · rw [if_pos hm, stepItem_idem]
        · rw [if_neg hm]
      · rw [if_neg hmb] at hsb
        rw [hcons, hsb, ih v (fun b' hb' => hfun b' (by simp [hb']))]
        simp only [hv]
        have hiff : (v.videoId ∈ (b :: bs).flatten) ↔ (v.videoId ∈ bs.flatten) := by
          rw [List.flatten_cons, List.mem_append]
          exact ⟨fun h => h.resolve_left hmb, Or.inr⟩
        by_cases hm : v.videoId ∈ bs.flatten
        · rw [if_pos hm, if_pos (hiff.mpr hm)]
        · rw [if_neg hm, if_neg (fun h => hm (hiff.mp h))]

/-- When every channel's search succeeds, `collectSearch` succeeds with the
concatenation of the per-channel record lists, in channel order. -/
theorem collectSearch_flatMap (parse : String → Option Int)
    (searchList : String → Int → Except String (List SearchItem))
    (channelNames : String → String) (weekAgo : Int)
    (resp : String → List SearchItem) (cids : List String)
    (hresp : ∀ c ∈ cids, searchList c weekAgo = .ok (resp c)) :
    collectSearch parse searchList channelNames weekAgo cids =
      .ok (cids.flatMap fun c => parseItems parse (channelNames c) (resp c)) := by
  induction cids with
  | nil => rfl
  | cons c cs ih =>
    unfold collectSearch
    rw [hresp c (by simp), ih (fun c' hc' => hresp c' (by simp [hc']))]
    rw [List.flatMap_cons]

/-- C8: when every channel's search succeeds deterministically, the detail
capability is per-id deterministic, and the collected records have
pairwise-distinct ids and pairwise-distinct published times, permuting the
channel id list leaves the fetched output unchanged: the merged, sorted
sequence is determined purely by the timestamps. -/
theorem output_independent_of_channel_order (parse : String → Option Int)
    (searchList : String → Int → Except String (List SearchItem))
    (videosList : List String → Except String (List DetailItem))
    (channelNames : String → String) (channelIDs channelIDs' : List String)
    (now : Int) (resp : String → List SearchItem) (itemOf : String → Option DetailItem)
    (hperm : channelIDs.Perm channelIDs')
    (hresp : ∀ c ∈ channelIDs, searchList c (now - weekNanos) = .ok (resp c))
    (hfun : ∀ b, videosList b = .ok (b.filterMap itemOf))
    (hid : ∀ i it, itemOf i = some it → it.id = i)
    (hnd : ((channelIDs.flatMap fun c => parseItems parse (channelNames c) (resp c)).map
      Video.videoId).Nodup)
    (hpub : (channelIDs.flatMap fun c => parseItems parse (channelNames c) (resp c)).Pairwise
      (fun a b => a.published ≠ b.published)) :
    fetchLatestVideos parse searchList videosList channelNames channelIDs now =
    fetchLatestVideos parse searchList videosList channelNames channelIDs' now := by
  have hbase : collectSearch parse searchList channelNames (now - weekNanos) channelIDs =
      .ok (channelIDs.flatMap fun c => parseItems parse (channelNames c) (resp c)) :=
    collectSearch_flatMap parse searchList channelNames _ resp channelIDs hresp
  have hresp' : ∀ c ∈ channelIDs', searchList c (now - weekNanos) = .ok (resp c) :=
    fun c hc => hresp c (hperm.mem_iff.mpr hc)
  have hbase' : collectSearch parse searchList channelNames (now - weekNanos) channelIDs' =
      .ok (channelIDs'.flatMap fun c => parseItems parse (channelNames c) (resp c)) :=
    collectSearch_flatMap parse searchList channelNames _ resp channelIDs' hresp'
  have hpb : (channelIDs.flatMap fun c => parseItems parse (channelNames c) (resp c)).Perm
      (channelIDs'.flatMap fun c => parseItems parse (channelNames c) (resp c)) :=
    List.Perm.flatMap_right _ hperm
  have hnd' : ((channelIDs'.flatMap fun c => parseItems parse (channelNames c) (resp c)).map
      Video.videoId).Nodup := (hpb.map Video.videoId).nodup_iff.mp hnd
  have hupc : (upcomingIDs (channelIDs.flatMap fun c =>
        parseItems parse (channelNames c) (resp c))).Perm
      (upcomingIDs (channelIDs'.flatMap fun c =>
        parseItems parse (channelNames c) (resp c))) := by
    unfold upcomingIDs
    exact (hpb.filter _).map _
  have hF : ∀ v, enrichVideo parse videosList
      (splitChunks (upcomingIDs (channelIDs.flatMap fun c =>
        parseItems parse (channelNames c) (resp c))) 50) v =
      enrichVideo parse videosList
      (splitChunks (upcomingIDs (channelIDs'.flatMap fun c =>
        parseItems parse (channelNames c) (resp c))) 50) v := by
    intro v
    rw [enrichVideo_functional parse videosList itemOf hid _ v (fun b _ => hfun b),
        enrichVideo_functional parse videosList itemOf hid _ v (fun b _ => hfun b),
        splitChunks_flatten _ 50 (by norm_num), splitChunks_flatten _ 50 (by norm_num)]
    by_cases hm : v.videoId ∈ upcomingIDs (channelIDs.flatMap fun c =>
        parseItems parse (channelNames c) (resp c))
    · rw [if_pos hm, if_pos (hupc.mem_iff.mp hm)]
    · rw [if_neg hm, if_neg (fun h => hm (hupc.mem_iff.mpr h))]
  have henr : (enrich parse videosList (channelIDs.flatMap fun c =>
        parseItems parse (channelNames c) (resp c))).Perm
      (enrich parse videosList (channelIDs'.flatMap fun c =>
        parseItems parse (channelNames c) (resp c))) := by
    rw [enrich_eq_map parse videosList _ hnd, enrich_eq_map parse videosList _ hnd']
    have hmapc : (channelIDs'.flatMap fun c =>
        parseItems parse (channelNames c) (resp c)).map
          (enrichVideo parse videosList
            (splitChunks (upcomingIDs (channelIDs'.flatMap fun c =>
              parseItems parse (channelNames c) (resp c))) 50)) =
        (channelIDs'.flatMap fun c => parseItems parse (channelNames c) (resp c)).map
          (enrichVideo parse videosList
            (splitChunks (upcomingIDs (channelIDs.flatMap fun c =>
              parseItems parse (channelNames c) (resp c))) 50)) :=
      List.map_congr_left fun v _ => (hF v).symm
    rw [hmapc]
    exact hpb.map _
  have hpubE : (enrich parse videosList (channelIDs.flatMap fun c =>
      parseItems parse (channelNames c) (resp c))).Pairwise
      (fun a b => a.published ≠ b.published) := by
    rw [enrich_eq_map parse videosList _ hnd, List.pairwise_map]
    refine List.Pairwise.imp ?_ hpub
    intro a b hab
    rw [enrichVideo_published, enrichVideo_published]
    exact hab
  have hpubE' : (enrich parse videosList (channelIDs'.flatMap fun c =>
      parseItems parse (channelNames c) (resp c))).Pairwise
      (fun a b => a.published ≠ b.published) :=
    (henr.pairwise_iff fun h => h.symm).mp hpubE
  have hpubS1 := ((List.perm_insertionSort videoLe
    (enrich parse videosList (channelIDs.flatMap fun c =>
      parseItems parse (channelNames c) (resp c)))).pairwise_iff
    (fun h => Ne.symm h)).mpr hpubE
  have hpubS2 := ((List.perm_insertionSort videoLe
    (enrich parse videosList (channelIDs'.flatMap fun c =>
      parseItems parse (channelNames c) (resp c)))).pairwise_iff
    (fun h => Ne.symm h)).mpr hpubE'
  have hlt1 : List.Sorted videoLt (List.insertionSort videoLe
      (enrich parse videosList (channelIDs.flatMap fun c =>
        parseItems parse (channelNames c) (resp c)))) := by
    refine List.Pairwise.imp ?_ ((List.sorted_insertionSort videoLe _).and hpubS1)
    intro a b hab
    exact lt_of_le_of_ne hab.1 (Ne.symm hab.2)
  have hlt2 : List.Sorted videoLt (List.insertionSort videoLe
      (enrich parse videosList (channelIDs'.flatMap fun c =>
        parseItems parse (channelNames c) (resp c)))) := by
    refine List.Pairwise.imp ?_ ((List.sorted_insertionSort videoLe _).and hpubS2)
    intro a b hab
    exact lt_of_le_of_ne hab.1 (Ne.symm hab.2)
  have hsp : (List.insertionSort videoLe
      (enrich parse videosList (channelIDs.flatMap fun c =>
        parseItems parse (channelNames c) (resp c)))).Perm
      (List.insertionSort videoLe
      (enrich parse videosList (channelIDs'.flatMap fun c =>
        parseItems parse (channelNames c) (resp c)))) :=
    ((List.perm_insertionSort videoLe _).trans henr).trans
      (List.perm_insertionSort videoLe _).symm
  have heq := List.eq_of_perm_of_sorted hsp hlt1 hlt2
  unfold fetchLatestVideos
  rw [hbase, hbase']
  exact congrArg Except.ok heq

/-- Witness for C8: two channels, one plain video and one upcoming video
with distinct published times, queried in both orders against a per-id
deterministic detail capability. -/
theorem output_independent_of_channel_order_witness :
    ((["c1", "c2"] : List String).Perm ["c2", "c1"]) ∧
    fetchLatestVideos exParse exSearchResp exDetailsFun (fun _ => "N") ["c1", "c2"] 0 =
    fetchLatestVideos exParse exSearchResp exDetailsFun (fun _ => "N") ["c2", "c1"] 0 :=
  ⟨by decide,
   output_independent_of_channel_order exParse exSearchResp exDetailsFun (fun _ => "N")
     ["c1", "c2"] ["c2", "c1"] 0 exResp exItemOf (by decide)
     (fun c _ => rfl) (fun b => rfl)
     (by
       intro i it h
       by_cases hi : i = "vU"
       · subst hi
         simp [exItemOf] at h
         rw [← h]
       · simp [exItemOf, hi] at h)
     (by decide) (by decide)⟩

end YVC
